import Mathlib

/-!
Verification development for the Squeek firmware core
(election coordinator, peer directory, ranging scheduler, position solver).

Each definition is a shallow embedding of a function from the C++ sources:
  - `src/src/mesh_conductor.cpp`  (election: `computeScore`, `pickWinner`)
  - `src/src/peer_table.cpp`      (peer directory)
  - `src/src/ftm_manager.cpp`     (ranging report statistics)
  - `src/src/ftm_scheduler.cpp`   (ranging scheduler)
  - `src/src/position_solver.cpp` (MDS and Kalman smoothing)

Modelling conventions:
  - machine integers (`uint8_t`, `uint16_t`, `uint32_t`) are `Nat`, with an
    explicit `% 2^32` where `uint32_t` wrap-around matters (`millis()` deltas);
  - `float`/`double` arithmetic is modelled exactly over `ℚ`; `sqrtf`/`sqrt`
    is passed in as an explicit parameter `sqrtQ : ℚ → ℚ`, every theorem that
    depends on a square root quantifies over it or fixes a concrete one;
  - fixed-size C arrays indexed up to a live count are modelled as `List`s of
    the live prefix; per-row distance arrays are total functions `ℕ → ℚ`.
-/

namespace Squeek

/-- Maximum number of mesh nodes (`MESH_MAX_NODES` in `bsp.hpp`). -/
def MESH_MAX_NODES : ℕ := 16

/-- Battery floor below which the election score is penalised
(`ELECT_BATTERY_FLOOR_MV` in `bsp.hpp`). -/
def ELECT_BATTERY_FLOOR_MV : ℕ := 2900

/-- A 6-byte hardware address, modelled as its list of byte values. -/
abbrev Mac := List ℕ

/-- Models `memcmp(a, b, 6) > 0` on two equal-length byte strings: byte-wise
lexicographic "strictly greater" comparison. -/
def macGt : Mac → Mac → Bool
  | [], _ => false
  | _ :: _, [] => false
  | a :: as, b :: bs => if b < a then true else if a < b then false else macGt as bs

/-- An `ElectionScore` record as collected during an election round
(`mesh_conductor.cpp`): candidate address, battery, adjacent peer count,
gateway tenure and the derived fitness score. -/
structure ElectionScore where
  mac : Mac
  battery_mv : ℕ
  peer_count : ℕ
  gateway_tenure : ℕ
  score : ℚ
deriving DecidableEq

/-- One comparison step of `pickWinner`'s loop (`mesh_conductor.cpp:221-236`):
the incoming candidate `c` replaces the best-so-far `best` when its score is
strictly greater, or when the scores tie exactly and `c`'s address compares
greater byte-wise. -/
def pickBetter (best c : ElectionScore) : ElectionScore :=
  if best.score < c.score then c
  else if c.score = best.score then (if macGt c.mac best.mac then c else best)
  else best

/-- Embeds `pickWinner` (`mesh_conductor.cpp:221-236`): fold of `pickBetter` over the
collected candidate list, starting from the candidate at index 0;
`none` when no candidate was collected. -/
def pickWinner : List ElectionScore → Option ElectionScore
  | [] => none
  | s :: rest => some (rest.foldl pickBetter s)

/-- Run-time configurable election weights
(`NvsConfigManager::electW*`, defaults in `bsp.hpp`). -/
structure ElectionConfig where
  wBattery : ℚ
  wAdjacency : ℚ
  wTenure : ℚ
  lowbatPenalty : ℚ

/-- The MAC tie-break term of `MeshConductor::computeScore`
(`mesh_conductor.cpp:160`): the low 16 address bits
`(mac[4] << 8) | mac[5]` scaled by `1/65536`. -/
def macTiebreak (mac4 mac5 : ℕ) : ℚ :=
  ((Nat.lor (mac4 <<< 8) mac5 : ℕ) : ℚ) / 65536

/-- Embeds `MeshConductor::computeScore` (`mesh_conductor.cpp:148-172`):
weighted sum of battery, adjacency and (negated) tenure plus the MAC
tie-break; when the battery is below the floor the whole score is
multiplied by the low-battery penalty. -/
def computeScore (cfg : ElectionConfig) (battery peers tenure mac4 mac5 : ℕ) : ℚ :=
  let score : ℚ := (battery : ℚ) * cfg.wBattery + (peers : ℚ) * cfg.wAdjacency
      - (tenure : ℚ) * cfg.wTenure + macTiebreak mac4 mac5
  if battery < ELECT_BATTERY_FLOOR_MV then score * cfg.lowbatPenalty else score

/-- The relation "`w` is at least as electable as `c`" induced by the
`pickWinner` comparison rule: strictly greater score, or an exact score tie
that `c` does not win on the byte-wise address comparison. -/
def beats (w c : ElectionScore) : Prop :=
  c.score < w.score ∨ (c.score = w.score ∧ macGt c.mac w.mac = false)

/-- Concrete election fixture: candidate with address ending in byte 1. -/
def candA : ElectionScore := ⟨[16, 32, 48, 64, 80, 1], 4000, 2, 0, 10⟩

/-- Concrete election fixture: candidate with address ending in byte 2,
whose score ties `candA` exactly. -/
def candB : ElectionScore := ⟨[16, 32, 48, 64, 80, 2], 3800, 5, 0, 10⟩

-- ### Peer directory (`peer_table.cpp`)

/-- Flag bit `PEER_STATUS_ALIVE` (`peer_table.h`). -/
def PEER_STATUS_ALIVE : ℕ := 1

/-- Flag bit `PEER_STATUS_SLEEPING` (`peer_table.h`). -/
def PEER_STATUS_SLEEPING : ℕ := 2

/-- Flag bit `PEER_STATUS_DEAD` (`peer_table.h`). -/
def PEER_STATUS_DEAD : ℕ := 4

/-- A `PeerEntry` record (`peer_table.h`). The fixed-size `distances` row is
modelled as a total function from peer index to distance (cm, `-1` =
unknown). -/
structure PeerEntry where
  mac : Mac
  softap_mac : Mac
  battery_mv : ℕ
  last_seen_ms : ℕ
  flags : ℕ
  distances : ℕ → ℚ
  position : ℚ × ℚ × ℚ
  confidence : ℚ
  ftm_epoch : ℕ

/-- The peer directory: the live prefix `s_entries[0..s_count)` of the entry
array, as a list (`peer_table.cpp`). Index 0 is the coordinator itself. -/
abbrev PeerTable := List PeerEntry

/-- Embeds `clearEntry` (`peer_table.cpp:29-37`): zeroed record with all distances
set to the unknown sentinel `-1`. -/
def emptyEntry : PeerEntry :=
  { mac := List.replicate 6 0
    softap_mac := List.replicate 6 0
    battery_mv := 0
    last_seen_ms := 0
    flags := 0
    distances := fun _ => -1
    position := (0, 0, 0)
    confidence := 0
    ftm_epoch := 0 }

/-- Embeds `PeerTable::peerCount` (`peer_table.cpp:182`). -/
def peerCount (t : PeerTable) : ℕ := t.length

/-- In-place update of one array slot, as done through `s_entries[i]`. -/
def updateAt {α : Type} (i : ℕ) (f : α → α) : List α → List α
  | [] => []
  | x :: xs =>
    match i with
    | 0 => f x :: xs
    | n + 1 => x :: updateAt n f xs

/-- Wrapping `uint32_t` subtraction `a - b` as used on `millis()` timestamps. -/
def u32sub (a b : ℕ) : ℕ := ((a % 2 ^ 32) + (2 ^ 32 - b % 2 ^ 32)) % 2 ^ 32

/-- Embeds `PeerTable::alivePeerCount` (`peer_table.cpp:186-193`): entries whose
`DEAD` flag is clear. -/
def alivePeerCount (t : PeerTable) : ℕ :=
  (t.filter (fun e => Nat.land e.flags PEER_STATUS_DEAD = 0)).length

/-- Embeds `PeerTable::getDimension` (`peer_table.cpp:217-222`). -/
def getDimension (t : PeerTable) : ℕ :=
  let alive := alivePeerCount t
  if alive ≤ 2 then 1 else if alive = 3 then 2 else 3

/-- The staleness threshold `heartbeatInterval_s * staleMultiplier * 1000`
computed in `uint32_t` (`peer_table.cpp:128-130`). -/
def staleMs (interval_s mult : ℕ) : ℕ := (interval_s * mult * 1000) % 2 ^ 32

/-- The per-record body of `PeerTable::scanStaleness`'s loop
(`peer_table.cpp:133-143`): already-dead records are skipped; a record whose
heartbeat age exceeds the threshold gets its flags overwritten with `DEAD`. -/
def scanEntry (now stale : ℕ) (e : PeerEntry) : PeerEntry :=
  if Nat.land e.flags PEER_STATUS_DEAD ≠ 0 then e
  else if stale < u32sub now e.last_seen_ms then { e with flags := PEER_STATUS_DEAD }
  else e

/-- The loop of `PeerTable::scanStaleness` starting from slot index `i`;
the C++ loop starts at `i = 1`, skipping the coordinator's own slot 0. -/
def scanFrom (now stale : ℕ) : ℕ → List PeerEntry → List PeerEntry
  | _, [] => []
  | i, e :: es =>
    (if i = 0 then e else scanEntry now stale e) :: scanFrom now stale (i + 1) es

/-- Embeds `PeerTable::scanStaleness` (`peer_table.cpp:126-148`), restricted to its
effect on the entry array (the conditional `broadcastSync` does not mutate
the table). -/
def scanStaleness (now interval_s mult : ℕ) (t : PeerTable) : PeerTable :=
  scanFrom now (staleMs interval_s mult) 0 t

/-- Embeds `PeerTable::setDistance` (`peer_table.cpp:195-200`): writes both
symmetric slots, but only when both indices are inside the populated
prefix. -/
def setDistance (t : PeerTable) (idxA idxB : ℕ) (d : ℚ) : PeerTable :=
  if idxA < t.length ∧ idxB < t.length then
    updateAt idxB (fun e => { e with distances := Function.update e.distances idxA d })
      (updateAt idxA (fun e => { e with distances := Function.update e.distances idxB d }) t)
  else t

/-- Embeds `PeerTable::getDistance` (`peer_table.cpp:202-206`): reads a stored
distance, or returns the sentinel `-1` when either index is out of range. -/
def getDistance (t : PeerTable) (idxA idxB : ℕ) : ℚ :=
  if idxA < t.length ∧ idxB < t.length then (t.getD idxA emptyEntry).distances idxB
  else -1

/-- Embeds `PeerTable::setPosition` (`peer_table.cpp:208-215`). -/
def setPosition (t : PeerTable) (idx : ℕ) (x y z conf : ℚ) : PeerTable :=
  if idx < t.length then
    updateAt idx (fun e => { e with position := (x, y, z), confidence := conf }) t
  else t

-- ### Ranging report statistics (`ftm_manager.cpp`)

/-- First pass of `ftmEventHandler` (`ftm_manager.cpp:43-49`): the samples
with nonzero RTT that enter the statistics. -/
def validSamples (samples : List ℕ) : List ℕ := samples.filter (fun r => r ≠ 0)

/-- Mean RTT over the nonzero samples (`ftm_manager.cpp:52`). -/
def sampleMean (samples : List ℕ) : ℚ :=
  ((validSamples samples).sum : ℚ) / ((validSamples samples).length : ℚ)

/-- Sum of squared deviations from the mean (`ftm_manager.cpp:55-61`). -/
def sampleVarSum (samples : List ℕ) : ℚ :=
  ((validSamples samples).map (fun r => ((r : ℚ) - sampleMean samples) ^ 2)).sum

/-- Sample standard deviation (`ftm_manager.cpp:62`): `sqrt(varSum/(n−1))`
when more than one valid sample, else 0. The square root is the model
parameter `sqrtQ`. -/
def sampleStddev (sqrtQ : ℚ → ℚ) (samples : List ℕ) : ℚ :=
  if 1 < (validSamples samples).length then
    sqrtQ (sampleVarSum samples / (((validSamples samples).length : ℚ) - 1))
  else 0

/-- Third pass (`ftm_manager.cpp:64-75`): the valid samples kept by the
two-standard-deviation outlier filter. -/
def filteredSamples (sqrtQ : ℚ → ℚ) (samples : List ℕ) : List ℕ :=
  (validSamples samples).filter (fun r =>
    decide (sampleStddev sqrtQ samples = 0 ∨
      |(r : ℚ) - sampleMean samples| ≤ 2 * sampleStddev sqrtQ samples))

/-- The distance extraction of `ftmEventHandler` for a SUCCESS-status report
(`ftm_manager.cpp:37-108`): `none` models a failed session
(`s_ftmSuccess = false`). A burst with at least one sample is averaged with
the 2-sigma filter and converted RTT(ps) → distance(cm) plus the responder
calibration offset; an *empty* burst (or a null report-data pointer) falls
back to the report-level `dist_est` (mm), converted to cm, and succeeds. -/
def ftmProcessReport (sqrtQ : ℚ → ℚ) (offset : ℤ) (samples : List ℕ) (dist_est : ℕ) :
    Option ℚ :=
  if samples ≠ [] then
    if 0 < (validSamples samples).length then
      if 0 < (filteredSamples sqrtQ samples).length then
        some ((((filteredSamples sqrtQ samples).sum : ℚ)
            / ((filteredSamples sqrtQ samples).length : ℚ)) / 1000 * 30 / 2 + (offset : ℚ))
      else none
    else none
  else some ((dist_est : ℚ) / 100 + (offset : ℚ))

-- ### Ranging scheduler (`ftm_scheduler.cpp`)

/-- Queue capacity `FTM_QUEUE_MAX = MESH_MAX_NODES·(MESH_MAX_NODES−1)/2`
(`ftm_scheduler.cpp:16`). -/
def FTM_QUEUE_MAX : ℕ := MESH_MAX_NODES * (MESH_MAX_NODES - 1) / 2

/-- A queued ranging job (`ftm_scheduler.h`). The priority is its `uint8_t`
value (`FTM_PRIO_NEW_NODE = 0` … `FTM_PRIO_SWEEP = 4`, lower = more
urgent). -/
structure FtmQueueItem where
  nodeA_idx : ℕ
  nodeB_idx : ℕ
  priority : ℕ
  queued_ms : ℕ
deriving DecidableEq

/-- The pair state machine (`ftm_scheduler.h`). -/
inductive FtmPairState
  | idle
  | wakeSent
  | waitingReady
  | goSent
  | waitingResult
deriving DecidableEq

/-- Scheduler state (file-scope statics of `ftm_scheduler.cpp`): the circular
buffer `s_queue[head..head+count)` is modelled by its live item sequence. -/
structure SchedState where
  queue : List FtmQueueItem
  pairState : FtmPairState
  currentA : ℕ
  currentB : ℕ
  readyA : Bool
  readyB : Bool
  pairStartMs : ℕ
  active : Bool

/-- The sorted insertion of `queuePush` (`ftm_scheduler.cpp:44-60`): insert
before the first queued item with strictly greater priority value; ties keep
arrival order (insertion at the end of the equal-priority run). -/
def insertByPrio (item : FtmQueueItem) : List FtmQueueItem → List FtmQueueItem
  | [] => [item]
  | x :: xs =>
    if item.priority < x.priority then item :: x :: xs
    else x :: insertByPrio item xs

/-- Embeds `isDuplicatePair` (`ftm_scheduler.cpp:73-82`): the unordered pair
`{a, b}` already appears in the queue. -/
def isDuplicatePair (q : List FtmQueueItem) (a b : ℕ) : Bool :=
  q.any (fun it =>
    (it.nodeA_idx == a && it.nodeB_idx == b) || (it.nodeA_idx == b && it.nodeB_idx == a))

/-- Embeds `FtmScheduler::enqueuePair` (`ftm_scheduler.cpp:272-285`): self-pairs and
already-queued unordered pairs are silently dropped; a full queue drops the
item too (failed `queuePush`); otherwise the item is insertion-sorted and the
scheduler is marked active. -/
def enqueuePair (now a b prio : ℕ) (s : SchedState) : SchedState :=
  if a = b then s
  else if isDuplicatePair s.queue a b then s
  else if FTM_QUEUE_MAX ≤ s.queue.length then s
  else { s with queue := insertByPrio ⟨a, b, prio, now⟩ s.queue, active := true }

/-- The viability check of `startNextPair` (`ftm_scheduler.cpp:181-184`):
both indices inside the populated table and neither endpoint dead. -/
def pairViable (t : PeerTable) (a b : ℕ) : Bool :=
  a < t.length && b < t.length
    && (Nat.land (t.getD a emptyEntry).flags PEER_STATUS_DEAD == 0)
    && (Nat.land (t.getD b emptyEntry).flags PEER_STATUS_DEAD == 0)

/-- The pop-until-viable loop of `startNextPair` (`ftm_scheduler.cpp:177-206`),
expressed on the queue's item sequence.  A viable pair becomes the in-flight
pair in `WaitingReady` (with an endpoint pre-marked ready when it is the
coordinator itself, as in `sendWakeMessages`); when the queue drains the
scheduler deactivates (the position solve this triggers is modelled
separately by `solve`). -/
def startNextLoop (ownMac : Mac) (t : PeerTable) (now : ℕ) (s : SchedState) :
    List FtmQueueItem → SchedState
  | [] =>
    if s.active then { s with queue := [], active := false } else { s with queue := [] }
  | item :: rest =>
    if pairViable t item.nodeA_idx item.nodeB_idx then
      { s with
        queue := rest
        pairState := .waitingReady
        currentA := item.nodeA_idx
        currentB := item.nodeB_idx
        readyA := (t.getD item.nodeA_idx emptyEntry).mac == ownMac
        readyB := (t.getD item.nodeB_idx emptyEntry).mac == ownMac
        pairStartMs := now }
    else startNextLoop ownMac t now s rest

/-- Embeds `startNextPair` (`ftm_scheduler.cpp:177-206`). -/
def startNextPair (ownMac : Mac) (t : PeerTable) (now : ℕ) (s : SchedState) : SchedState :=
  startNextLoop ownMac t now s s.queue

/-- Embeds `processTimerCb` (`ftm_scheduler.cpp:138-175`): the 500 ms pair state
machine pump. The transient `GO_SENT` state is set and immediately replaced
by `WAITING_RESULT` within the same call, so it is collapsed here. -/
def processTimer (ownMac : Mac) (t : PeerTable) (now timeout : ℕ) (s : SchedState) :
    SchedState :=
  match s.pairState with
  | .idle => startNextPair ownMac t now s
  | .waitingReady =>
    if s.readyA && s.readyB then
      if s.currentB < t.length then { s with pairState := .waitingResult } else s
    else if timeout < u32sub now s.pairStartMs then { s with pairState := .idle }
    else s
  | .waitingResult =>
    if timeout * 2 < u32sub now s.pairStartMs then { s with pairState := .idle } else s
  | _ => s

/-- Embeds `FtmScheduler::onFtmReady` (`ftm_scheduler.cpp:315-340`). -/
def onFtmReady (mac : Mac) (t : PeerTable) (s : SchedState) : SchedState :=
  if s.pairState ≠ .waitingReady then s
  else if s.currentA < t.length ∧ s.currentB < t.length then
    if (s.readyA || ((t.getD s.currentA emptyEntry).mac == mac))
        && (s.readyB || ((t.getD s.currentB emptyEntry).mac == mac)) then
      { s with readyA := s.readyA || ((t.getD s.currentA emptyEntry).mac == mac)
               readyB := s.readyB || ((t.getD s.currentB emptyEntry).mac == mac)
               pairState := .waitingResult }
    else
      { s with readyA := s.readyA || ((t.getD s.currentA emptyEntry).mac == mac)
               readyB := s.readyB || ((t.getD s.currentB emptyEntry).mac == mac) }
  else s

/-- Embeds `FtmScheduler::onFtmResult` (`ftm_scheduler.cpp:342-364`): a successful
result stores the distance for the in-flight pair; either way the state
machine returns to `Idle`. -/
def onFtmResult (t : PeerTable) (distance : ℚ) (status : ℕ) (s : SchedState) :
    PeerTable × SchedState :=
  if s.pairState ≠ .waitingResult then (t, s)
  else if status = 0 ∧ 0 ≤ distance then
    (setDistance t s.currentA s.currentB distance, { s with pairState := .idle })
  else (t, { s with pairState := .idle })

/-- Two queue items carry the same unordered node pair. -/
def samePair (x y : FtmQueueItem) : Prop :=
  (x.nodeA_idx = y.nodeA_idx ∧ x.nodeB_idx = y.nodeB_idx) ∨
  (x.nodeA_idx = y.nodeB_idx ∧ x.nodeB_idx = y.nodeA_idx)

/-- The queue never holds the same unordered pair twice. -/
def queueNoDup (q : List FtmQueueItem) : Prop :=
  q.Pairwise (fun x y => ¬ samePair x y)

/-- The unordered pairs currently in `WaitingReady`/`WaitingResult`. -/
def inFlightPairs (s : SchedState) : List (ℕ × ℕ) :=
  if s.pairState = .waitingReady ∨ s.pairState = .waitingResult then
    [(s.currentA, s.currentB)]
  else []

/-- One observable scheduler event: an enqueue (`enqueuePair`, also covering
each step of `enqueueFullSweep`/`enqueueNewNode`, which are loops of
`enqueuePair`), a process-timer tick, an `FTM_READY`, or an `FTM_RESULT`. -/
inductive SchedStep : SchedState → SchedState → Prop
  | enqueue (now a b prio : ℕ) (s : SchedState) : SchedStep s (enqueuePair now a b prio s)
  | process (ownMac : Mac) (t : PeerTable) (now timeout : ℕ) (s : SchedState) :
      SchedStep s (processTimer ownMac t now timeout s)
  | ready (mac : Mac) (t : PeerTable) (s : SchedState) : SchedStep s (onFtmReady mac t s)
  | result (t : PeerTable) (d : ℚ) (status : ℕ) (s : SchedState) :
      SchedStep s (onFtmResult t d status s).2

/-- Embeds the `FtmScheduler::init` state (`ftm_scheduler.cpp:235-261`). -/
def initSched : SchedState :=
  { queue := []
    pairState := .idle
    currentA := 0
    currentB := 0
    readyA := false
    readyB := false
    pairStartMs := 0
    active := false }

/-- States reachable from `init` by scheduler events. -/
def SchedReachable (s : SchedState) : Prop :=
  Relation.ReflTransGen SchedStep initSched s

-- ### Position solver (`position_solver.cpp`)

/-- Per-node Kalman filter state (`position_solver.cpp:13-17`): three
independent axes, each with estimate `x[d]` and variance `P[d]`. -/
structure KalmanState where
  x0 : ℚ
  x1 : ℚ
  x2 : ℚ
  P0 : ℚ
  P1 : ℚ
  P2 : ℚ
  initialized : Bool

/-- Embeds the `PositionSolver::init` per-node state (`position_solver.cpp:89-100`). -/
def initKalman : KalmanState :=
  { x0 := 0, x1 := 0, x2 := 0, P0 := 1000, P1 := 1000, P2 := 1000, initialized := false }

/-- The solver-visible state: the peer table plus the `s_kalman` array
(modelled as a total function from node index). -/
structure SolverState where
  table : PeerTable
  kalman : ℕ → KalmanState

/-- The index pairs `i < j < n` enumerated by the solver's nested loops. -/
def allPairs (n : ℕ) : List (ℕ × ℕ) :=
  (List.range n).flatMap fun i =>
    ((List.range n).filter (fun j => i < j)).map (fun j => (i, j))

/-- Counter `validPairs` of `PositionSolver::solve` (`position_solver.cpp:126-141`):
the pairs `i < j` whose table distance is known (`>= 0`). -/
def countValidPairs (t : PeerTable) (n : ℕ) : ℕ :=
  ((allPairs n).filter (fun p => decide (0 ≤ getDistance t p.1 p.2))).length

/-- Embeds `avgD2` (`position_solver.cpp:150-160`): mean of the known squared
distances; `0` when none is known. -/
def avgSquaredDistance (t : PeerTable) (n : ℕ) : ℚ :=
  let valid := (allPairs n).filter (fun p => decide (0 ≤ getDistance t p.1 p.2))
  if 0 < valid.length then
    (valid.map (fun p => getDistance t p.1 p.2 * getDistance t p.1 p.2)).sum
      / (valid.length : ℚ)
  else 0

/-- The rebuilt squared-distance matrix (`position_solver.cpp:231-239`):
zero diagonal, measured distances squared, unknown entries imputed with
`avgD2`. The code reads `getDistance(i, j)` only for `i < j` and mirrors the
value, hence the `min`/`max`. -/
def d2entry (t : PeerTable) (avg : ℚ) (i j : ℕ) : ℚ :=
  if i = j then 0
  else
    let d := getDistance t (min i j) (max i j)
    if 0 ≤ d then d * d else avg

/-- Row means of the squared-distance matrix (`position_solver.cpp:242-246`). -/
def rowMean (t : PeerTable) (avg : ℚ) (n i : ℕ) : ℚ :=
  (((List.range n).map (fun j => d2entry t avg i j)).sum) / (n : ℚ)

/-- Grand mean (`position_solver.cpp:247-249`). -/
def grandMean (t : PeerTable) (avg : ℚ) (n : ℕ) : ℚ :=
  (((List.range n).map (fun i => rowMean t avg n i)).sum) / (n : ℚ)

/-- The double-centered matrix `B` (`position_solver.cpp:250-254`):
`B[i][j] = −½·(D²[i][j] − rowMean[i] − rowMean[j] + grandMean)`. (The first,
discarded build of `D²`/`B` at lines 125-206 writes only scratch buffers that
are fully rebuilt here before any later read, so it has no observable
effect.) -/
def bMat (t : PeerTable) (avg : ℚ) (n : ℕ) : ℕ → ℕ → ℚ := fun i j =>
  -(1/2) * (d2entry t avg i j - rowMean t avg n i - rowMean t avg n j + grandMean t avg n)

/-- Embeds `matVecMul` (`position_solver.cpp:40-47`) on the leading `n × n` block. -/
def matVecMul (B : ℕ → ℕ → ℚ) (v : ℕ → ℚ) (n : ℕ) : ℕ → ℚ := fun i =>
  ((List.range n).map (fun j => B i j * v j)).sum

/-- Embeds `vecNorm` (`position_solver.cpp:49-53`): `sqrt` of the sum of squares,
via the model square root `sqrtQ`. -/
def vecNorm (sqrtQ : ℚ → ℚ) (v : ℕ → ℚ) (n : ℕ) : ℚ :=
  sqrtQ (((List.range n).map (fun i => v i * v i)).sum)

/-- The iteration loop of `powerIteration` (`position_solver.cpp:63-76`):
`fuel` counts the remaining iterations; breaks early when the iterate's norm falls below
`1e-10`, leaving the previous vector and eigenvalue. -/
def powerIterLoop (sqrtQ : ℚ → ℚ) (B : ℕ → ℕ → ℚ) (n : ℕ) :
    ℕ → (ℕ → ℚ) → ℚ → ((ℕ → ℚ) × ℚ)
  | 0, v, ev => (v, ev)
  | fuel + 1, v, ev =>
    let w := matVecMul B v n
    let norm := vecNorm sqrtQ w n
    if norm < 1 / 10 ^ 10 then (v, ev)
    else powerIterLoop sqrtQ B n fuel (fun i => w i / norm) norm

/-- Embeds `powerIteration` (`position_solver.cpp:63-76`): starts from the
deterministic seed `v[i] = 1 + 0.1·i`, eigenvalue `0`. -/
def powerIteration (sqrtQ : ℚ → ℚ) (B : ℕ → ℕ → ℚ) (n maxIter : ℕ) : (ℕ → ℚ) × ℚ :=
  powerIterLoop sqrtQ B n maxIter (fun i => 1 + (i : ℚ) / 10) 0

/-- Embeds `deflate` (`position_solver.cpp:79-85`): `B ← B − λ·v·vᵀ` (the code
writes only the `n × n` block; indices outside it are never read again). -/
def deflate (B : ℕ → ℕ → ℚ) (ev : ℚ) (v : ℕ → ℚ) : ℕ → ℕ → ℚ := fun i j =>
  B i j - ev * v i * v j

/-- The eigen-extraction loop (`position_solver.cpp:260-263`): extract the
top eigenpair with 200 iterations, deflate, repeat `numDim` times. -/
def extractEigs (sqrtQ : ℚ → ℚ) (n : ℕ) : ℕ → (ℕ → ℕ → ℚ) → List ((ℕ → ℚ) × ℚ)
  | 0, _ => []
  | d + 1, B =>
    let ve := powerIteration sqrtQ B n 200
    ve :: extractEigs sqrtQ n d (deflate B ve.2 ve.1)

/-- Raw coordinates (`position_solver.cpp:265-273`):
`coord[i][d] = evec[d][i]·sqrt(λ_d)` for positive eigenvalues, else `0`;
axes beyond `numDim` stay zero (`memset`). -/
def rawCoord (sqrtQ : ℚ → ℚ) (eigs : List ((ℕ → ℚ) × ℚ)) (i d : ℕ) : ℚ :=
  match eigs.get? d with
  | some ve => if 0 < ve.2 then ve.1 i * sqrtQ ve.2 else 0
  | none => 0

/-- Translation so node 0 sits at the origin (`position_solver.cpp:275-282`);
the code subtracts the offset only on axes `d < numDim`. -/
def centered (c : ℕ → ℕ → ℚ) (numDim i d : ℕ) : ℚ :=
  if d < numDim then c i d - c 0 d else c i d

/-- Rotation so node 1 lies on the positive first axis
(`position_solver.cpp:284-300`), applied only when at least 2 nodes and 2
dimensions and the rotation radius exceeds `1e-6`. -/
def rotated (sqrtQ : ℚ → ℚ) (n numDim : ℕ) (c : ℕ → ℕ → ℚ) (i d : ℕ) : ℚ :=
  if 2 ≤ n ∧ 2 ≤ numDim then
    if 1 / 10 ^ 6 < sqrtQ (c 1 0 * c 1 0 + c 1 1 * c 1 1) then
      let r := sqrtQ (c 1 0 * c 1 0 + c 1 1 * c 1 1)
      if d = 0 then c i 0 * (c 1 0 / r) + c i 1 * (c 1 1 / r)
      else if d = 1 then -(c i 0) * (c 1 1 / r) + c i 1 * (c 1 0 / r)
      else c i d
    else c i d
  else c i d

/-- The whole MDS pipeline of `PositionSolver::solve` for `n ≥ 3` nodes
(`position_solver.cpp:229-300`): rebuilt `D²`/`B`, eigen-extraction, scaling,
translation, rotation. -/
def solveCoords (sqrtQ : ℚ → ℚ) (t : PeerTable) : ℕ → ℕ → ℚ :=
  let n := t.length
  let numDim := min (getDimension t) 3
  let avg := avgSquaredDistance t n
  let eigs := extractEigs sqrtQ n numDim (bMat t avg n)
  rotated sqrtQ n numDim (centered (rawCoord sqrtQ eigs) numDim)

/-- One Kalman axis update (`position_solver.cpp:317-329`): predict by adding
the process noise to `P`, gain `K = P/(P+R)` with `R = 50`, update the
estimate by `K` times the innovation, shrink `P` by `(1−K)`. -/
def axisStep (q c x P : ℚ) : ℚ × ℚ :=
  let P1 := P + q
  let K := P1 / (P1 + 50)
  (x + K * (c - x), P1 * (1 - K))

/-- Per-node Kalman update (`position_solver.cpp:305-330`): first solve for a
node initializes estimate to the raw coordinates with `P = 100` per axis;
later solves apply `axisStep` on axes `d < numDim`. -/
def kalmanUpdateNode (q : ℚ) (numDim : ℕ) (c0 c1 c2 : ℚ) (k : KalmanState) : KalmanState :=
  if k.initialized = false then
    { x0 := c0, x1 := c1, x2 := c2, P0 := 100, P1 := 100, P2 := 100, initialized := true }
  else
    { x0 := if 0 < numDim then (axisStep q c0 k.x0 k.P0).1 else k.x0
      x1 := if 1 < numDim then (axisStep q c1 k.x1 k.P1).1 else k.x1
      x2 := if 2 < numDim then (axisStep q c2 k.x2 k.P2).1 else k.x2
      P0 := if 0 < numDim then (axisStep q c0 k.x0 k.P0).2 else k.P0
      P1 := if 1 < numDim then (axisStep q c1 k.x1 k.P1).2 else k.P1
      P2 := if 2 < numDim then (axisStep q c2 k.x2 k.P2).2 else k.P2
      initialized := true }

/-- The confidence written back to the peer table
(`position_solver.cpp:333`): `1/(1 + (P[0]+P[1]+P[2])/3)`. -/
def confidenceOf (P0 P1 P2 : ℚ) : ℚ := 1 / (1 + (P0 + P1 + P2) / 3)

/-- One iteration of the write-back loop (`position_solver.cpp:305-335`):
update node `i`'s Kalman state and store the filtered position and
confidence. -/
def kalmanWrite (q : ℚ) (numDim : ℕ) (c : ℕ → ℕ → ℚ) (st : SolverState) (i : ℕ) :
    SolverState :=
  let k := kalmanUpdateNode q numDim (c i 0) (c i 1) (c i 2) (st.kalman i)
  { table := setPosition st.table i k.x0 k.x1 k.x2 (confidenceOf k.P0 k.P1 k.P2)
    kalman := Function.update st.kalman i k }

/-- The full write-back loop over nodes `0 … n−1`. -/
def kalmanPhase (q : ℚ) (numDim n : ℕ) (c : ℕ → ℕ → ℚ) (st : SolverState) : SolverState :=
  (List.range n).foldl (kalmanWrite q numDim c) st

/-- Embeds `PositionSolver::solve` (`position_solver.cpp:102-338`): no-op below 2
records; direct placement for exactly 2 records with a known distance (the
Kalman array untouched); abort when fewer than `n − 1` pairwise distances
are known; otherwise MDS followed by Kalman smoothing and write-back. -/
def solve (sqrtQ : ℚ → ℚ) (q : ℚ) (st : SolverState) : SolverState :=
  if st.table.length < 2 then st
  else if st.table.length = 2 then
    if getDistance st.table 0 1 < 0 then st
    else
      { st with table :=
          setPosition (setPosition st.table 0 0 0 0 1) 1 (getDistance st.table 0 1) 0 0 1 }
  else if countValidPairs st.table st.table.length < st.table.length - 1 then st
  else
    kalmanPhase q (min (getDimension st.table) 3) st.table.length
      (solveCoords sqrtQ st.table) st

/-- The confidence currently stored for node `j`. -/
def confAt (st : SolverState) (j : ℕ) : ℚ := (st.table.getD j emptyEntry).confidence

/-- A per-axis variance is admissible for process noise `q`: nonnegative and
at or above the Kalman fixed point (`50·q ≤ P·(P+q)` with `R = 50`). -/
def KalmanAxisOK (q P : ℚ) : Prop := 0 ≤ P ∧ 50 * q ≤ P * (P + q)

/-- Solver-state invariant for confidence monotonicity: any node whose
filter is initialized lives in a table of at least 3 records (so the 2-record
direct-placement path — which bypasses the filter — can no longer occur, as
records are never removed), has admissible per-axis variances, and its
stored confidence is at most the confidence its variances yield. -/
def SolveInv (q : ℚ) (st : SolverState) : Prop :=
  ∀ j, (st.kalman j).initialized = true →
    3 ≤ st.table.length ∧
    KalmanAxisOK q (st.kalman j).P0 ∧
    KalmanAxisOK q (st.kalman j).P1 ∧
    KalmanAxisOK q (st.kalman j).P2 ∧
    confAt st j ≤ confidenceOf (st.kalman j).P0 (st.kalman j).P1 (st.kalman j).P2

/-- Fixture: a distance row with a single known entry. -/
def rowWith (j : ℕ) (d : ℚ) : ℕ → ℚ := Function.update (fun _ => -1) j d

/-- Fixture: alive record knowing only the distance to node 1 (300 cm). -/
def cexEntryA : PeerEntry :=
  { emptyEntry with flags := PEER_STATUS_ALIVE, distances := rowWith 1 300 }

/-- Fixture: alive record knowing only the distance to node 0 (300 cm). -/
def cexEntryB : PeerEntry :=
  { emptyEntry with flags := PEER_STATUS_ALIVE, distances := rowWith 0 300 }

/-- Fixture: a dead record with no measured distances. -/
def cexEntryDead : PeerEntry := { emptyEntry with flags := PEER_STATUS_DEAD }

/-- Fixture for C4/C8: three records of which exactly two are alive, with a
single measured distance 0↔1 = 300 cm. -/
def cexC4State : SolverState :=
  { table := [cexEntryA, cexEntryB, cexEntryDead], kalman := fun _ => initKalman }

/-- Fixture: alive record with distances to node 1 (300) and node 2 (400). -/
def c3EntryA : PeerEntry :=
  { emptyEntry with
    flags := PEER_STATUS_ALIVE
    distances := Function.update (rowWith 1 300) 2 400 }

/-- Fixture: alive record with distance 400 cm to node 0. -/
def c3EntryC : PeerEntry :=
  { emptyEntry with flags := PEER_STATUS_ALIVE, distances := rowWith 0 400 }

/-- Fixture for C3: three alive records with distances 0↔1 = 300,
0↔2 = 400 and 1↔2 unknown (2 = n−1 valid pairs, so the solve runs). -/
def cexC3State : SolverState :=
  { table := [c3EntryA, cexEntryB, c3EntryC], kalman := fun _ => initKalman }

/-- Fixture: a two-record table with measured distance 300 cm. -/
def twoNodeState : SolverState :=
  { table := [cexEntryA, cexEntryB], kalman := fun _ => initKalman }

/-- Fixture: an initialized Kalman state at the post-initialization point
(`P = 100` per axis). -/
def c9Kalman : KalmanState :=
  { x0 := 0, x1 := 0, x2 := 0, P0 := 100, P1 := 100, P2 := 100, initialized := true }

/-- Fixture for C9: the C3 table with node 0's filter initialized. -/
def c9State : SolverState :=
  { table := [c3EntryA, cexEntryB, c3EntryC]
    kalman := fun j => if j = 0 then c9Kalman else initKalman }

/-- Fixture: the scheduler state after a single enqueue of pair `{0, 1}`. -/
def schedAfterOne : SchedState := enqueuePair 5 0 1 4 initSched

/-- Fixture: an alive record whose heartbeat is long stale. -/
def staleSelfEntry : PeerEntry :=
  { emptyEntry with flags := PEER_STATUS_ALIVE, last_seen_ms := 0, battery_mv := 3700 }

/-- Fixture: a two-record table for the out-of-range distance witness. -/
def twoEntryTable : PeerTable := [staleSelfEntry, staleSelfEntry]

-- ### Lemmas about the byte-wise address comparison

theorem macGt_irrefl (a : Mac) : macGt a a = false := by
  induction a with
  | nil => rfl
  | cons x xs ih => simp [macGt, ih]

theorem macGt_asymm {a b : Mac} (h : macGt a b = true) : macGt b a = false := by
  induction a generalizing b with
  | nil => simp [macGt] at h
  | cons x xs ih =>
    cases b with
    | nil => rfl
    | cons y ys =>
      simp only [macGt] at h ⊢
      by_cases hyx : y < x
      · have hxy : ¬ x < y := by omega
        simp [hyx, hxy]
      · by_cases hxy : x < y
        · simp [hyx, hxy] at h
        · simp only [if_neg hyx, if_neg hxy] at h
          simp only [if_neg hxy, if_neg hyx]
          exact ih h

theorem macGt_false_trans {a b c : Mac} (hab : a.length = b.length)
    (hbc : b.length = c.length)
    (h1 : macGt a b = false) (h2 : macGt b c = false) : macGt a c = false := by
  induction a generalizing b c with
  | nil =>
    cases b with
    | nil =>
      cases c with
      | nil => rfl
      | cons z zs => simp at hbc
    | cons y ys => simp at hab
  | cons x xs ih =>
    cases b with
    | nil => simp at hab
    | cons y ys =>
      cases c with
      | nil => simp at hbc
      | cons z zs =>
        simp only [List.length_cons, Nat.succ.injEq] at hab hbc
        simp only [macGt] at h1 h2 ⊢
        by_cases hyx : y < x
        · simp [hyx] at h1
        · by_cases hzy : z < y
          · simp [hzy] at h2
          · have hzx : ¬ z < x := by omega
            simp only [if_neg hzx]
            by_cases hxz : x < z
            · simp [hxz]
            · have hxy : ¬ x < y := by omega
              have hyz : ¬ y < z := by omega
              simp only [if_neg hyx, if_neg hxy] at h1
              simp only [if_neg hzy, if_neg hyz] at h2
              simp only [if_neg hxz]
              exact ih hab hbc h1 h2

-- ### The election comparison rule is a maximum selection

theorem beats_refl (w : ElectionScore) : beats w w :=
  Or.inr ⟨rfl, macGt_irrefl _⟩

theorem beats_trans {r b c : ElectionScore} (hcb : c.mac.length = b.mac.length)
    (hbr : b.mac.length = r.mac.length) (h1 : beats r b) (h2 : beats b c) :
    beats r c := by
  rcases h1 with h1 | ⟨h1e, h1m⟩
  · rcases h2 with h2 | ⟨h2e, _⟩
    · exact Or.inl (lt_trans h2 h1)
    · exact Or.inl (h2e ▸ h1)
  · rcases h2 with h2 | ⟨h2e, h2m⟩
    · exact Or.inl (h1e ▸ h2)
    · exact Or.inr ⟨h2e.trans h1e, macGt_false_trans hcb hbr h2m h1m⟩

theorem pickBetter_eq_or (b c : ElectionScore) :
    pickBetter b c = b ∨ pickBetter b c = c := by
  unfold pickBetter
  split_ifs <;> simp

theorem pickBetter_beats_left (b c : ElectionScore) : beats (pickBetter b c) b := by
  unfold pickBetter
  split_ifs with h1 h2 h3
  · exact Or.inl h1
  · exact Or.inr ⟨h2.symm, macGt_asymm h3⟩
  · exact beats_refl b
  · exact beats_refl b

theorem pickBetter_beats_right (b c : ElectionScore) : beats (pickBetter b c) c := by
  unfold pickBetter
  split_ifs with h1 h2 h3
  · exact beats_refl c
  · exact beats_refl c
  · exact Or.inr ⟨h2, by simpa using h3⟩
  · exact Or.inl (lt_of_le_of_ne (le_of_not_lt h1) h2)

theorem foldl_pickBetter_spec (l : List ElectionScore) (init : ElectionScore)
    (hlen : ∀ c ∈ init :: l, c.mac.length = 6) :
    (l.foldl pickBetter init = init ∨ l.foldl pickBetter init ∈ l) ∧
    beats (l.foldl pickBetter init) init ∧
    ∀ c ∈ l, beats (l.foldl pickBetter init) c := by
  induction l generalizing init with
  | nil => exact ⟨Or.inl rfl, beats_refl init, by simp⟩
  | cons c0 rest ih =>
    have hlen1 : ∀ c ∈ pickBetter init c0 :: rest, c.mac.length = 6 := by
      intro c hc
      rcases List.mem_cons.mp hc with hc | hc
      · rcases pickBetter_eq_or init c0 with h | h
        · rw [hc, h]; exact hlen init (by simp)
        · rw [hc, h]; exact hlen c0 (by simp)
      · exact hlen c (by simp [hc])
    obtain ⟨hmem, hbeat, hall⟩ := ih (pickBetter init c0) hlen1
    have hwlen : (rest.foldl pickBetter (pickBetter init c0)).mac.length = 6 := by
      rcases hmem with h | h
      · rw [h]; exact hlen1 _ (by simp)
      · exact hlen1 _ (by simp [h])
    have hb1len : (pickBetter init c0).mac.length = 6 := hlen1 _ (by simp)
    refine ⟨?_, ?_, ?_⟩
    · simp only [List.foldl_cons]
      rcases hmem with h | h
      · rcases pickBetter_eq_or init c0 with h' | h'
        · exact Or.inl (h.trans h')
        · rw [h, h']
          exact Or.inr (by simp)
      · exact Or.inr (List.mem_cons_of_mem _ h)
    · simp only [List.foldl_cons]
      exact beats_trans (by rw [hlen init (by simp), hb1len])
        (by rw [hb1len, hwlen]) hbeat (pickBetter_beats_left init c0)
    · intro c hc
      simp only [List.foldl_cons]
      rcases List.mem_cons.mp hc with hc | hc
      · subst hc
        exact beats_trans (by rw [hlen c (by simp), hb1len])
          (by rw [hb1len, hwlen]) hbeat (pickBetter_beats_right init c)
      · exact hall c hc

/-- C1. `pickWinner` (`mesh_conductor.cpp:221-236`) selects a maximum of
the candidate list under the order "higher score first, then byte-wise greater
address": every collected candidate either has a strictly smaller score than
the winner, or ties the winner's score exactly and does not exceed the
winner's 6-byte address. In particular a candidate with strictly greatest
score is always the winner, and an exact-score tie is broken in favour of the
byte-wise (numerically) greater address. -/
theorem pickWinner_max (scores : List ElectionScore) (w : ElectionScore)
    (hlen : ∀ c ∈ scores, c.mac.length = 6)
    (hw : pickWinner scores = some w) :
    w ∈ scores ∧ ∀ c ∈ scores,
      c.score < w.score ∨ (c.score = w.score ∧ macGt c.mac w.mac = false) := by
  match scores, hw with
  | s :: rest, hw =>
    have hw' : rest.foldl pickBetter s = w := by
      simpa [pickWinner] using hw
    obtain ⟨hmem, hbeat, hall⟩ := foldl_pickBetter_spec rest s hlen
    rw [hw'] at hmem hbeat hall
    refine ⟨?_, ?_⟩
    · rcases hmem with h | h
      · rw [h]; exact List.mem_cons_self s rest
      · exact List.mem_cons_of_mem s h
    · intro c hc
      rcases List.mem_cons.mp hc with hc | hc
      · subst hc; exact hbeat
      · exact hall c hc

/-- Witness for C1: two candidates with exactly equal scores; the winner is
the one with the byte-wise greater address (`candB`). -/
theorem pickWinner_max_witness :
    candB ∈ [candA, candB] ∧ ∀ c ∈ [candA, candB],
      c.score < candB.score ∨ (c.score = candB.score ∧ macGt c.mac candB.mac = false) :=
  pickWinner_max [candA, candB] candB (by decide) (by decide)

/-- C6. `MeshConductor::computeScore` (`mesh_conductor.cpp:148-172`)
computes `battery·w_battery + peers·w_adjacency − tenure·w_tenure +
mac_tiebreak`; when the battery is below the configured floor the *entire*
sum is multiplied by the low-battery penalty factor; and the MAC tie-break
(low 16 address bits scaled by 1/65536) always lies in `[0, 1)`. -/
theorem computeScore_spec (cfg : ElectionConfig) (battery peers tenure mac4 mac5 : ℕ)
    (h4 : mac4 < 256) (h5 : mac5 < 256) :
    computeScore cfg battery peers tenure mac4 mac5
      = (if battery < ELECT_BATTERY_FLOOR_MV then cfg.lowbatPenalty else 1)
        * ((battery : ℚ) * cfg.wBattery + (peers : ℚ) * cfg.wAdjacency
            - (tenure : ℚ) * cfg.wTenure + macTiebreak mac4 mac5)
    ∧ 0 ≤ macTiebreak mac4 mac5 ∧ macTiebreak mac4 mac5 < 1 := by
  refine ⟨?_, ?_, ?_⟩
  · unfold computeScore
    split_ifs with h
    · ring
    · ring
  · unfold macTiebreak
    positivity
  · unfold macTiebreak
    rw [div_lt_one (by norm_num)]
    have hlt : Nat.lor (mac4 <<< 8) mac5 < 2 ^ 16 := by
      apply Nat.or_lt_two_pow
      · rw [Nat.shiftLeft_eq]
        omega
      · omega
    have : ((Nat.lor (mac4 <<< 8) mac5 : ℕ) : ℚ) < ((2 ^ 16 : ℕ) : ℚ) := by
      exact_mod_cast hlt
    simpa using this

/-- Witness for C6: a candidate below the battery floor with the default
weights; the whole score is scaled by the penalty and the tie-break is in
`[0,1)`. -/
theorem computeScore_spec_witness :
    computeScore ⟨1, 5, 8, 1/10⟩ 2500 2 1 18 52
      = (if 2500 < ELECT_BATTERY_FLOOR_MV then (1:ℚ)/10 else 1)
        * ((2500 : ℚ) * 1 + (2 : ℚ) * 5 - (1 : ℚ) * 8 + macTiebreak 18 52)
    ∧ 0 ≤ macTiebreak 18 52 ∧ macTiebreak 18 52 < 1 :=
  computeScore_spec ⟨1, 5, 8, 1/10⟩ 2500 2 1 18 52 (by decide) (by decide)

-- ### Peer directory staleness and distance-matrix bounds

theorem scanFrom_getElem? (now stale k i : ℕ) (l : List PeerEntry) :
    (scanFrom now stale k l)[i]? =
      l[i]?.map (fun e => if k + i = 0 then e else scanEntry now stale e) := by
  induction l generalizing k i with
  | nil => simp [scanFrom]
  | cons e es ih =>
    cases i with
    | zero => simp [scanFrom]
    | succ n =>
      simp only [scanFrom, List.getElem?_cons_succ]
      rw [ih (k + 1) n]
      have : k + 1 + n = k + (n + 1) := by omega
      rw [this]

/-- C5 (amended). `PeerTable::scanStaleness` (`peer_table.cpp:126-148`):
for every record other than the coordinator's own slot-0 record, the scan
marks it dead exactly when it was already dead or its heartbeat age
`now − lastHeartbeat` (in wrapping `uint32_t` arithmetic) exceeds
`heartbeatInterval × staleMultiplier × 1000` ms; a record that is already
dead is never changed (so the dead flag is never cleared); and the slot-0
record is never touched at all, even when stale. -/
theorem scanStaleness_spec (now iv mult : ℕ) (t : PeerTable) (i : ℕ)
    (e e' : PeerEntry) (he : t[i]? = some e)
    (he' : (scanStaleness now iv mult t)[i]? = some e') :
    (i = 0 → e' = e) ∧
    (1 ≤ i →
      ((Nat.land e'.flags PEER_STATUS_DEAD ≠ 0) ↔
        (Nat.land e.flags PEER_STATUS_DEAD ≠ 0 ∨
          staleMs iv mult < u32sub now e.last_seen_ms))) ∧
    (Nat.land e.flags PEER_STATUS_DEAD ≠ 0 → e' = e) := by
  have h := scanFrom_getElem? now (staleMs iv mult) 0 i t
  unfold scanStaleness at he'
  rw [h, he] at he'
  have hfe : (if 0 + i = 0 then e else scanEntry now (staleMs iv mult) e) = e' := by
    simpa using he'
  by_cases hi : i = 0
  · subst hi
    simp only [Nat.add_zero, if_pos rfl] at hfe
    subst hfe
    exact ⟨fun _ => rfl, fun h1 => absurd h1 (by omega), fun _ => rfl⟩
  · have hne : ¬(0 + i = 0) := by omega
    rw [if_neg hne] at hfe
    subst hfe
    refine ⟨fun h0 => absurd h0 hi, fun _ => ?_, fun hd => ?_⟩
    · unfold scanEntry
      by_cases hd : Nat.land e.flags PEER_STATUS_DEAD ≠ 0
      · rw [if_pos hd]
        exact ⟨fun _ => Or.inl hd, fun _ => hd⟩
      · rw [if_neg hd]
        by_cases hs : staleMs iv mult < u32sub now e.last_seen_ms
        · rw [if_pos hs]
          simp only [PEER_STATUS_DEAD]
          exact ⟨fun _ => Or.inr hs, fun _ => by decide⟩
        · rw [if_neg hs]
          exact ⟨fun h => Or.inl h, fun h => h.elim (fun h => h) (fun h => absurd h hs)⟩
    · unfold scanEntry
      rw [if_pos hd]

/-- Witness for C5: a fresh scan on a two-record table whose second record is
long stale marks that record dead. -/
theorem scanStaleness_spec_witness :
    ((1 : ℕ) = 0 → scanEntry 1000000 (staleMs 30 3) staleSelfEntry = staleSelfEntry) ∧
    (1 ≤ (1 : ℕ) →
      ((Nat.land (scanEntry 1000000 (staleMs 30 3) staleSelfEntry).flags PEER_STATUS_DEAD ≠ 0) ↔
        (Nat.land staleSelfEntry.flags PEER_STATUS_DEAD ≠ 0 ∨
          staleMs 30 3 < u32sub 1000000 staleSelfEntry.last_seen_ms))) ∧
    (Nat.land staleSelfEntry.flags PEER_STATUS_DEAD ≠ 0 →
      scanEntry 1000000 (staleMs 30 3) staleSelfEntry = staleSelfEntry) :=
  scanStaleness_spec 1000000 30 3 [staleSelfEntry, staleSelfEntry] 1
    staleSelfEntry (scanEntry 1000000 (staleMs 30 3) staleSelfEntry) rfl rfl

/-- C5 counterexample. The claim as stated ("for *every* record ... iff")
fails on the coordinator's own slot-0 record: a single-record table whose
record is alive and far past the staleness threshold is left entirely
unchanged by `scanStaleness` (the loop starts at index 1), so the record is
*not* marked dead although `now − lastHeartbeat` exceeds the threshold. -/
theorem scanStaleness_slot0_cex :
    Nat.land staleSelfEntry.flags PEER_STATUS_DEAD = 0 ∧
    staleMs 30 3 < u32sub 1000000 staleSelfEntry.last_seen_ms ∧
    (scanStaleness 1000000 30 3 [staleSelfEntry]).map PeerEntry.flags
      = [PEER_STATUS_ALIVE] :=
  ⟨by decide, by decide, rfl⟩

/-- C10. `PeerTable::setDistance` / `getDistance`
(`peer_table.cpp:195-206`): when either index is at or beyond the populated
record count, `setDistance` leaves the table unchanged and `getDistance`
returns the unknown sentinel `-1`. -/
theorem setDistance_getDistance_oob (t : PeerTable) (idxA idxB : ℕ) (d : ℚ)
    (h : t.length ≤ idxA ∨ t.length ≤ idxB) :
    setDistance t idxA idxB d = t ∧ getDistance t idxA idxB = -1 := by
  have h' : ¬(idxA < t.length ∧ idxB < t.length) := by omega
  constructor
  · unfold setDistance
    rw [if_neg h']
  · unfold getDistance
    rw [if_neg h']

/-- Witness for C10: out-of-range write and read on a two-record table. -/
theorem setDistance_getDistance_oob_witness :
    setDistance twoEntryTable 5 0 123 = twoEntryTable ∧
    getDistance twoEntryTable 5 0 = -1 :=
  setDistance_getDistance_oob twoEntryTable 5 0 123 (by decide)

-- ### Ranging failure semantics

/-- C2 (amended). For a burst that *contains samples*, the session fails
(no distance) whenever the two-standard-deviation filter discards every
valid sample — in particular whenever every sample has zero RTT.  An *empty*
burst, however, does not fail: it succeeds with the report-level distance
estimate (`dist_est`, mm → cm) plus the calibration offset. -/
theorem ftmProcessReport_spec (sqrtQ : ℚ → ℚ) (offset : ℤ) (samples : List ℕ)
    (dist_est : ℕ) :
    (samples ≠ [] → filteredSamples sqrtQ samples = [] →
      ftmProcessReport sqrtQ offset samples dist_est = none) ∧
    (samples = [] →
      ftmProcessReport sqrtQ offset samples dist_est
        = some ((dist_est : ℚ) / 100 + (offset : ℚ))) := by
  constructor
  · intro hne hf
    unfold ftmProcessReport
    rw [if_pos hne]
    by_cases hv : 0 < (validSamples samples).length
    · rw [if_pos hv, if_neg (by simp [hf])]
    · rw [if_neg hv]
  · intro he
    subst he
    rfl

/-- Witness for C2 (amended): a two-sample burst `[1, 3]` under a model
square root that maps everything to `1/4` has both samples rejected by the
2-sigma filter, and the session fails. -/
theorem ftmProcessReport_spec_witness :
    ftmProcessReport (fun _ => (1 : ℚ)/4) 7 [1, 3] 500 = none :=
  (ftmProcessReport_spec (fun _ => (1 : ℚ)/4) 7 [1, 3] 500).1 (by decide)
    (by norm_num [filteredSamples, validSamples, sampleStddev, sampleMean,
      sampleVarSum, List.filter])

/-- C2 counterexample. The claim says an empty sample burst produces a
failure and no distance; in the code an empty burst (or null report data)
takes the fallback branch (`ftm_manager.cpp:94-100`) and *succeeds* with the
report-level estimate: here `dist_est = 500` yields distance `5` cm. -/
theorem ftmProcessReport_empty_cex :
    ftmProcessReport (fun _ => 0) 0 ([] : List ℕ) 500 = some 5 := by
  unfold ftmProcessReport
  norm_num

-- ### Scheduler queue discipline

theorem samePair_symm {x y : FtmQueueItem} (h : samePair x y) : samePair y x := by
  rcases h with ⟨h1, h2⟩ | ⟨h1, h2⟩
  · exact Or.inl ⟨h1.symm, h2.symm⟩
  · exact Or.inr ⟨h2.symm, h1.symm⟩

theorem mem_insertByPrio {item y : FtmQueueItem} {q : List FtmQueueItem} :
    y ∈ insertByPrio item q ↔ y = item ∨ y ∈ q := by
  induction q with
  | nil => simp [insertByPrio]
  | cons x xs ih =>
    unfold insertByPrio
    split_ifs with hp
    · simp [List.mem_cons]
    · simp only [List.mem_cons, ih]
      tauto

theorem insertByPrio_noDup (item : FtmQueueItem) (q : List FtmQueueItem)
    (hni : ∀ y ∈ q, ¬ samePair item y) (hq : queueNoDup q) :
    queueNoDup (insertByPrio item q) := by
  induction q with
  | nil =>
    unfold insertByPrio queueNoDup
    simp
  | cons x xs ih =>
    unfold insertByPrio
    split_ifs with hp
    · exact List.Pairwise.cons (fun y hy => hni y hy) hq
    · unfold queueNoDup at hq ⊢
      rcases List.pairwise_cons.mp hq with ⟨hx, hxs⟩
      refine List.pairwise_cons.mpr ⟨?_, ?_⟩
      · intro y hy
        rcases mem_insertByPrio.mp hy with h | h
        · subst h
          intro hsp
          exact hni x (by simp) (samePair_symm hsp)
        · exact hx y h
      · exact ih (fun y hy => hni y (List.mem_cons_of_mem _ hy)) hxs

theorem not_samePair_of_no_dup {q : List FtmQueueItem} {a b : ℕ}
    (h : isDuplicatePair q a b = false) (prio now : ℕ) :
    ∀ y ∈ q, ¬ samePair (⟨a, b, prio, now⟩ : FtmQueueItem) y := by
  intro y hy hs
  unfold isDuplicatePair at h
  rw [List.any_eq_false] at h
  have hy' := h y hy
  simp only [Bool.or_eq_true, Bool.and_eq_true, beq_iff_eq, not_or, not_and] at hy'
  rcases hs with ⟨h1, h2⟩ | ⟨h1, h2⟩
  · exact hy'.1 h1.symm h2.symm
  · exact hy'.2 h2.symm h1.symm

theorem startNextLoop_queue_sublist (ownMac : Mac) (t : PeerTable) (now : ℕ)
    (s : SchedState) (q : List FtmQueueItem) :
    (startNextLoop ownMac t now s q).queue.Sublist q := by
  induction q with
  | nil =>
    unfold startNextLoop
    split_ifs <;> simp
  | cons x xs ih =>
    unfold startNextLoop
    split_ifs with hv
    · simp only
      exact List.sublist_cons_self x xs
    · exact ih.trans (List.sublist_cons_self x xs)

theorem schedStep_noDup {s s' : SchedState} (hstep : SchedStep s s')
    (h : queueNoDup s.queue) : queueNoDup s'.queue := by
  cases hstep with
  | enqueue now a b prio s =>
    unfold enqueuePair
    split_ifs with hab hdup hfull
    · exact h
    · exact h
    · exact h
    · exact insertByPrio_noDup _ _
        (not_samePair_of_no_dup (by simpa using hdup) prio now) h
  | process ownMac t now timeout s =>
    unfold processTimer
    cases hps : s.pairState
    · exact h.sublist (startNextLoop_queue_sublist ownMac t now s s.queue)
    · exact h
    · split_ifs <;> exact h
    · exact h
    · split_ifs <;> exact h
  | ready mac t s =>
    unfold onFtmReady
    split_ifs <;> exact h
  | result t d status s =>
    unfold onFtmResult
    split_ifs <;> exact h

theorem schedReachable_noDup {s : SchedState} (h : SchedReachable s) :
    queueNoDup s.queue := by
  induction h with
  | refl => exact List.Pairwise.nil
  | tail _ hstep ih => exact schedStep_noDup hstep ih

/-- C7. In every scheduler state reachable from `FtmScheduler::init` by
enqueues, process-timer ticks, `FTM_READY` and `FTM_RESULT` events: at most
one pair is in the `WaitingReady`/`WaitingResult` states (the scheduler
holds a single in-flight pair); the queue never contains the same unordered
pair twice; and `enqueuePair(a,b,p)` leaves the state entirely unchanged
whenever `{a,b}` (in either order) is already queued. -/
theorem scheduler_invariant (s : SchedState) (h : SchedReachable s) :
    (inFlightPairs s).length ≤ 1 ∧ queueNoDup s.queue ∧
    ∀ now a b prio, isDuplicatePair s.queue a b = true →
      enqueuePair now a b prio s = s := by
  refine ⟨?_, schedReachable_noDup h, ?_⟩
  · unfold inFlightPairs
    split_ifs <;> simp
  · intro now a b prio hdup
    unfold enqueuePair
    by_cases hab : a = b
    · rw [if_pos hab]
    · rw [if_neg hab, if_pos hdup]

/-- Witness for C7: the state reached by one enqueue of pair `{0, 1}`. -/
theorem scheduler_invariant_witness :
    (inFlightPairs schedAfterOne).length ≤ 1 ∧ queueNoDup schedAfterOne.queue ∧
    ∀ now a b prio, isDuplicatePair schedAfterOne.queue a b = true →
      enqueuePair now a b prio schedAfterOne = schedAfterOne :=
  scheduler_invariant schedAfterOne
    (Relation.ReflTransGen.single (SchedStep.enqueue 5 0 1 4 initSched))

-- ### Position solver: abort and special-case paths

theorem updateAt_length {α : Type} (i : ℕ) (f : α → α) (l : List α) :
    (updateAt i f l).length = l.length := by
  induction l generalizing i with
  | nil => simp [updateAt]
  | cons x xs ih =>
    cases i with
    | zero => simp [updateAt]
    | succ n => simp [updateAt, ih]

theorem setPosition_length (t : PeerTable) (idx : ℕ) (x y z conf : ℚ) :
    (setPosition t idx x y z conf).length = t.length := by
  unfold setPosition
  split_ifs with h
  · exact updateAt_length idx _ t
  · rfl

/-- C8. `PositionSolver::solve` (`position_solver.cpp:125-147`): with at
least 3 records and fewer than `n − 1` known pairwise distances, the solve
aborts and the entire solver state — every stored position, confidence and
Kalman filter state — is left unchanged. -/
theorem solve_insufficient_abort (sqrtQ : ℚ → ℚ) (q : ℚ) (st : SolverState)
    (h3 : 3 ≤ st.table.length)
    (hins : countValidPairs st.table st.table.length < st.table.length - 1) :
    solve sqrtQ q st = st := by
  unfold solve
  rw [if_neg (by omega), if_neg (by omega), if_pos hins]

/-- Witness for C8: three records with only one measured distance (1 < 2
valid pairs): the solve is a no-op. -/
theorem solve_insufficient_abort_witness :
    solve (fun _ => 0) (1/100) cexC4State = cexC4State := by
  refine solve_insufficient_abort (fun _ => 0) (1/100) cexC4State (by decide) ?_
  have h1 : countValidPairs cexC4State.table cexC4State.table.length = 1 := by
    with_unfolding_all rfl
  have h2 : cexC4State.table.length = 3 := by rfl
  omega

/-- C4 counterexample. The claim quantifies over states with exactly 2
*alive* nodes, but `solve` keys on the *record count* (`peerCount`,
`position_solver.cpp:103,113`). With 3 records of which exactly 2 are alive
and the alive pair's distance measured (300 cm), the solve takes the general
path, finds 1 < n−1 = 2 valid pairs, and aborts: node 1 stays at `(0,0,0)`
with confidence `0` — not at `(300,0,0)` with confidence `1.0` as the claim
requires, and nothing is placed at all. -/
theorem solve_two_alive_cex :
    alivePeerCount cexC4State.table = 2 ∧
    getDistance cexC4State.table 0 1 = 300 ∧
    solve (fun _ => 0) (1/100) cexC4State = cexC4State ∧
    (cexC4State.table.getD 1 emptyEntry).position = (0, 0, 0) ∧
    (cexC4State.table.getD 1 emptyEntry).confidence = 0 := by
  refine ⟨?_, ?_, ?_, ?_, ?_⟩
  · with_unfolding_all rfl
  · with_unfolding_all rfl
  · with_unfolding_all rfl
  · with_unfolding_all rfl
  · with_unfolding_all rfl

/-- C4 (amended). Whenever the solver runs with exactly 2 *records* in
the peer table (alive or not — the code checks the record count) whose
pairwise distance `d` has been measured (`d ≥ 0`), it places node 0 at
`(0,0,0)` and node 1 at `(d,0,0)` exactly, both with confidence `1.0`, and
the Kalman array is untouched (general MDS and smoothing skipped). -/
theorem solve_two_records (sqrtQ : ℚ → ℚ) (q : ℚ) (st : SolverState)
    (h2 : st.table.length = 2) (hd : 0 ≤ getDistance st.table 0 1) :
    (solve sqrtQ q st).kalman = st.kalman ∧
    ∃ e0 e1,
      (solve sqrtQ q st).table = [e0, e1] ∧
      e0.position = (0, 0, 0) ∧ e0.confidence = 1 ∧
      e1.position = (getDistance st.table 0 1, 0, 0) ∧ e1.confidence = 1 := by
  have hsolve : solve sqrtQ q st =
      { st with table :=
          setPosition (setPosition st.table 0 0 0 0 1) 1 (getDistance st.table 0 1) 0 0 1 } := by
    unfold solve
    rw [if_neg (by omega), if_pos h2, if_neg (not_lt.mpr hd)]
  obtain ⟨a, b, hab⟩ := List.length_eq_two.mp h2
  refine ⟨by rw [hsolve], ?_⟩
  refine ⟨{ a with position := (0, 0, 0), confidence := 1 },
    { b with position := (getDistance st.table 0 1, 0, 0), confidence := 1 }, ?_, rfl, rfl, rfl, rfl⟩
  rw [hsolve]
  simp only [hab]
  simp [setPosition, updateAt]

/-- Witness for C4 (amended): two alive records at 300 cm get placed at
`(0,0,0)` and `(300,0,0)` with confidence 1. -/
theorem solve_two_records_witness :
    (solve (fun _ => 0) (1/100) twoNodeState).kalman = twoNodeState.kalman ∧
    ∃ e0 e1,
      (solve (fun _ => 0) (1/100) twoNodeState).table = [e0, e1] ∧
      e0.position = (0, 0, 0) ∧ e0.confidence = 1 ∧
      e1.position = (getDistance twoNodeState.table 0 1, 0, 0) ∧ e1.confidence = 1 := by
  refine solve_two_records (fun _ => 0) (1/100) twoNodeState (by rfl) ?_
  have h : getDistance twoNodeState.table 0 1 = 300 := by with_unfolding_all rfl
  rw [h]
  norm_num

-- ### Position solver: the Kalman write-back loop

theorem updateAt_getElem?_ne {α : Type} (i j : ℕ) (f : α → α) (l : List α)
    (h : j ≠ i) : (updateAt i f l)[j]? = l[j]? := by
  induction l generalizing i j with
  | nil => simp [updateAt]
  | cons x xs ih =>
    cases i with
    | zero =>
      cases j with
      | zero => omega
      | succ m => simp [updateAt]
    | succ n =>
      cases j with
      | zero => simp [updateAt]
      | succ m => simpa [updateAt] using ih n m (by omega)

theorem updateAt_getElem?_eq {α : Type} (i : ℕ) (f : α → α) (l : List α) :
    (updateAt i f l)[i]? = l[i]?.map f := by
  induction l generalizing i with
  | nil => simp [updateAt]
  | cons x xs ih =>
    cases i with
    | zero => simp [updateAt]
    | succ n => simpa [updateAt] using ih n

theorem setPosition_getElem?_ne (t : PeerTable) (idx j : ℕ) (x y z conf : ℚ)
    (h : j ≠ idx) : (setPosition t idx x y z conf)[j]? = t[j]? := by
  unfold setPosition
  split_ifs with hi
  · exact updateAt_getElem?_ne idx j _ t h
  · rfl

theorem setPosition_getElem?_eq (t : PeerTable) (idx : ℕ) (x y z conf : ℚ)
    (h : idx < t.length) :
    (setPosition t idx x y z conf)[idx]? =
      t[idx]?.map (fun e => { e with position := (x, y, z), confidence := conf }) := by
  unfold setPosition
  rw [if_pos h]
  exact updateAt_getElem?_eq idx _ t

theorem kalmanWrite_table_length (q : ℚ) (nd : ℕ) (c : ℕ → ℕ → ℚ) (st : SolverState)
    (i : ℕ) : (kalmanWrite q nd c st i).table.length = st.table.length :=
  setPosition_length ..

theorem kalmanWrite_kalman_ne (q : ℚ) (nd : ℕ) (c : ℕ → ℕ → ℚ) (st : SolverState)
    (i j : ℕ) (h : j ≠ i) : (kalmanWrite q nd c st i).kalman j = st.kalman j := by
  unfold kalmanWrite
  exact Function.update_noteq h _ _

theorem kalmanWrite_table_ne (q : ℚ) (nd : ℕ) (c : ℕ → ℕ → ℚ) (st : SolverState)
    (i j : ℕ) (h : j ≠ i) : (kalmanWrite q nd c st i).table[j]? = st.table[j]? := by
  unfold kalmanWrite
  exact setPosition_getElem?_ne _ _ _ _ _ _ _ h

theorem kalmanFold_length (q : ℚ) (nd : ℕ) (c : ℕ → ℕ → ℚ) (l : List ℕ)
    (st : SolverState) :
    (l.foldl (kalmanWrite q nd c) st).table.length = st.table.length := by
  induction l generalizing st with
  | nil => rfl
  | cons j js ih => rw [List.foldl_cons, ih, kalmanWrite_table_length]

theorem kalmanFold_untouched (q : ℚ) (nd : ℕ) (c : ℕ → ℕ → ℚ) (l : List ℕ)
    (st : SolverState) (i : ℕ) (h : i ∉ l) :
    (l.foldl (kalmanWrite q nd c) st).kalman i = st.kalman i ∧
    (l.foldl (kalmanWrite q nd c) st).table[i]? = st.table[i]? := by
  induction l generalizing st with
  | nil => exact ⟨rfl, rfl⟩
  | cons j js ih =>
    have hij : i ≠ j := fun e => h (e ▸ List.mem_cons_self j js)
    rw [List.foldl_cons]
    obtain ⟨h1, h2⟩ := ih (kalmanWrite q nd c st j) (fun hm => h (List.mem_cons_of_mem _ hm))
    exact ⟨h1.trans (kalmanWrite_kalman_ne q nd c st j i hij),
      h2.trans (kalmanWrite_table_ne q nd c st j i hij)⟩

theorem kalmanFold_touched (q : ℚ) (nd : ℕ) (c : ℕ → ℕ → ℚ) (l : List ℕ)
    (st : SolverState) (i : ℕ)
    (hmem : i ∈ l) (hnd : l.Nodup) (hlen : i < st.table.length) :
    (l.foldl (kalmanWrite q nd c) st).kalman i
      = kalmanUpdateNode q nd (c i 0) (c i 1) (c i 2) (st.kalman i) ∧
    (l.foldl (kalmanWrite q nd c) st).table[i]? =
      st.table[i]?.map (fun e =>
        { e with
          position := ((kalmanUpdateNode q nd (c i 0) (c i 1) (c i 2) (st.kalman i)).x0,
            (kalmanUpdateNode q nd (c i 0) (c i 1) (c i 2) (st.kalman i)).x1,
            (kalmanUpdateNode q nd (c i 0) (c i 1) (c i 2) (st.kalman i)).x2)
          confidence := confidenceOf
            (kalmanUpdateNode q nd (c i 0) (c i 1) (c i 2) (st.kalman i)).P0
            (kalmanUpdateNode q nd (c i 0) (c i 1) (c i 2) (st.kalman i)).P1
            (kalmanUpdateNode q nd (c i 0) (c i 1) (c i 2) (st.kalman i)).P2 }) := by
  induction l generalizing st with
  | nil => simp at hmem
  | cons j js ih =>
    rw [List.foldl_cons]
    rcases List.mem_cons.mp hmem with hij | hmem'
    · subst hij
      have hnotin : i ∉ js := (List.nodup_cons.mp hnd).1
      obtain ⟨h1, h2⟩ := kalmanFold_untouched q nd c js (kalmanWrite q nd c st i) i hnotin
      constructor
      · rw [h1]
        unfold kalmanWrite
        exact Function.update_same i _ _
      · rw [h2]
        unfold kalmanWrite
        exact setPosition_getElem?_eq _ _ _ _ _ _ hlen
    · have hij : i ≠ j := by
        rintro rfl
        exact (List.nodup_cons.mp hnd).1 hmem'
      have hl2 : i < (kalmanWrite q nd c st j).table.length := by
        rw [kalmanWrite_table_length]
        exact hlen
      obtain ⟨h1, h2⟩ := ih (kalmanWrite q nd c st j) hmem' (List.nodup_cons.mp hnd).2 hl2
      rw [kalmanWrite_kalman_ne q nd c st j i hij] at h1
      rw [kalmanWrite_table_ne q nd c st j i hij,
        kalmanWrite_kalman_ne q nd c st j i hij] at h2
      exact ⟨h1, h2⟩

/-- C3 (amended). For every node updated through the Kalman stage of a
solve (≥ 3 records, enough valid distances), the confidence written to the
peer table equals `1/(1 + (P0+P1+P2)/3)` where `P0,P1,P2` are that node's
*post-solve* per-axis variances: one plus the *sum* of the variances over 3,
i.e. `1/(1 + meanVarianceAcrossAxes)` — and not `1/(1 + meanVariance/3)` as
the claim stated. -/
theorem solve_confidence_formula (sqrtQ : ℚ → ℚ) (q : ℚ) (st : SolverState) (i : ℕ)
    (h3 : 3 ≤ st.table.length)
    (hvp : st.table.length - 1 ≤ countValidPairs st.table st.table.length)
    (hi : i < st.table.length) :
    ∃ e, (solve sqrtQ q st).table[i]? = some e ∧
      (solve sqrtQ q st).kalman i
        = kalmanUpdateNode q (min (getDimension st.table) 3)
            (solveCoords sqrtQ st.table i 0) (solveCoords sqrtQ st.table i 1)
            (solveCoords sqrtQ st.table i 2) (st.kalman i) ∧
      e.confidence = 1 / (1 + (((solve sqrtQ q st).kalman i).P0
          + ((solve sqrtQ q st).kalman i).P1 + ((solve sqrtQ q st).kalman i).P2) / 3) := by
  have hsolve : solve sqrtQ q st =
      kalmanPhase q (min (getDimension st.table) 3) st.table.length
        (solveCoords sqrtQ st.table) st := by
    unfold solve
    rw [if_neg (by omega), if_neg (by omega), if_neg (by omega)]
  obtain ⟨h1, h2⟩ := kalmanFold_touched q (min (getDimension st.table) 3)
    (solveCoords sqrtQ st.table) (List.range st.table.length) st i
    (List.mem_range.mpr hi) (List.nodup_range _) hi
  have he0 : st.table[i]? = some (st.table.get ⟨i, hi⟩) := List.getElem?_eq_getElem hi
  rw [hsolve]
  unfold kalmanPhase
  rw [h2, he0]
  exact ⟨_, rfl, h1, by rw [h1]; rfl⟩

/-- Witness for C3 (amended): node 0 of the 3-node fixture after one solve. -/
theorem solve_confidence_formula_witness :
    ∃ e, (solve (fun _ => 0) (1/100) cexC3State).table[0]? = some e ∧
      (solve (fun _ => 0) (1/100) cexC3State).kalman 0
        = kalmanUpdateNode (1/100) (min (getDimension cexC3State.table) 3)
            (solveCoords (fun _ => 0) cexC3State.table 0 0)
            (solveCoords (fun _ => 0) cexC3State.table 0 1)
            (solveCoords (fun _ => 0) cexC3State.table 0 2) (cexC3State.kalman 0) ∧
      e.confidence = 1 / (1 + (((solve (fun _ => 0) (1/100) cexC3State).kalman 0).P0
          + ((solve (fun _ => 0) (1/100) cexC3State).kalman 0).P1
          + ((solve (fun _ => 0) (1/100) cexC3State).kalman 0).P2) / 3) := by
  refine solve_confidence_formula (fun _ => 0) (1/100) cexC3State 0 (by decide) ?_ (by decide)
  have h : countValidPairs cexC3State.table cexC3State.table.length = 2 := by
    with_unfolding_all rfl
  have hl : cexC3State.table.length = 3 := rfl
  omega

/-- C3 counterexample. On the 3-node fixture the first solve initializes
node 0's filter to `P = (100,100,100)` (mean variance 100) and writes
confidence `1/101 = 1/(1 + 300/3)`; the claim's formula
`1/(1 + meanVariance/3)` would give `3/103 ≠ 1/101`. -/
theorem solve_confidence_cex :
    ((solve (fun _ => 0) (1/100) cexC3State).kalman 0).P0 = 100 ∧
    ((solve (fun _ => 0) (1/100) cexC3State).kalman 0).P1 = 100 ∧
    ((solve (fun _ => 0) (1/100) cexC3State).kalman 0).P2 = 100 ∧
    ((solve (fun _ => 0) (1/100) cexC3State).table.getD 0 emptyEntry).confidence = 1 / 101 ∧
    (1 : ℚ) / 101 ≠ 1 / (1 + ((100 + 100 + 100) / 3) / 3) := by
  refine ⟨?_, ?_, ?_, ?_, by norm_num⟩
  · with_unfolding_all rfl
  · with_unfolding_all rfl
  · with_unfolding_all rfl
  · with_unfolding_all rfl

-- ### Position solver: Kalman confidence monotonicity

theorem axisStep_P_eq (q c x P : ℚ) (hS : 0 ≤ P + q) :
    (axisStep q c x P).2 = 50 * (P + q) / (P + q + 50) := by
  have h50 : P + q + 50 ≠ 0 := by positivity
  unfold axisStep
  field_simp
  ring

theorem axisStep_spec (q c x P : ℚ) (hq : 0 ≤ q) (h : KalmanAxisOK q P) :
    KalmanAxisOK q (axisStep q c x P).2 ∧ (axisStep q c x P).2 ≤ P := by
  obtain ⟨hP, hfix⟩ := h
  have hS : 0 ≤ P + q := by linarith
  have h2 : (0 : ℚ) < P + q + 50 := by linarith
  have hA := axisStep_P_eq q c x P hS
  refine ⟨⟨?_, ?_⟩, ?_⟩
  · rw [hA]
    positivity
  · rw [hA]
    rw [div_add' _ q _ (ne_of_gt h2), div_mul_div_comm, le_div_iff₀ (by positivity)]
    nlinarith [hfix, hq, hP]
  · rw [hA, div_le_iff₀ h2]
    nlinarith [hfix]

theorem confidenceOf_mono {a0 a1 a2 b0 b1 b2 : ℚ} (h0 : 0 ≤ b0) (h1 : 0 ≤ b1)
    (h2 : 0 ≤ b2) (hb : b0 + b1 + b2 ≤ a0 + a1 + a2) :
    confidenceOf a0 a1 a2 ≤ confidenceOf b0 b1 b2 := by
  unfold confidenceOf
  apply one_div_le_one_div_of_le
  · positivity
  · linarith

theorem kalmanUpdateNode_initialized (q : ℚ) (nd : ℕ) (c0 c1 c2 : ℚ) (k : KalmanState) :
    (kalmanUpdateNode q nd c0 c1 c2 k).initialized = true := by
  unfold kalmanUpdateNode
  split_ifs <;> rfl

theorem kalmanUpdateNode_spec (q : ℚ) (nd : ℕ) (c0 c1 c2 : ℚ) (k : KalmanState)
    (hq : 0 ≤ q) (hk : k.initialized = true)
    (h0 : KalmanAxisOK q k.P0) (h1 : KalmanAxisOK q k.P1) (h2 : KalmanAxisOK q k.P2) :
    KalmanAxisOK q (kalmanUpdateNode q nd c0 c1 c2 k).P0 ∧
    KalmanAxisOK q (kalmanUpdateNode q nd c0 c1 c2 k).P1 ∧
    KalmanAxisOK q (kalmanUpdateNode q nd c0 c1 c2 k).P2 ∧
    (kalmanUpdateNode q nd c0 c1 c2 k).P0 ≤ k.P0 ∧
    (kalmanUpdateNode q nd c0 c1 c2 k).P1 ≤ k.P1 ∧
    (kalmanUpdateNode q nd c0 c1 c2 k).P2 ≤ k.P2 := by
  have hax : ∀ (c x P : ℚ) (b : Prop) (inst : Decidable b), KalmanAxisOK q P →
      KalmanAxisOK q (if b then (axisStep q c x P).2 else P) ∧
      (if b then (axisStep q c x P).2 else P) ≤ P := by
    intro c x P b inst hP
    split_ifs with hb
    · exact ⟨(axisStep_spec q c x P hq hP).1, (axisStep_spec q c x P hq hP).2⟩
    · exact ⟨hP, le_refl P⟩
  have hkf : ¬ (k.initialized = false) := by simp [hk]
  unfold kalmanUpdateNode
  rw [if_neg hkf]
  exact ⟨(hax c0 k.x0 k.P0 _ _ h0).1, (hax c1 k.x1 k.P1 _ _ h1).1,
    (hax c2 k.x2 k.P2 _ _ h2).1, (hax c0 k.x0 k.P0 _ _ h0).2,
    (hax c1 k.x1 k.P1 _ _ h1).2, (hax c2 k.x2 k.P2 _ _ h2).2⟩

theorem confAt_eq {st : SolverState} {j : ℕ} {e : PeerEntry}
    (h : st.table[j]? = some e) : confAt st j = e.confidence := by
  unfold confAt
  rw [List.getD_eq_getElem?_getD, h]
  rfl

theorem confAt_eq_none {st : SolverState} {j : ℕ}
    (h : st.table[j]? = none) : confAt st j = 0 := by
  unfold confAt
  rw [List.getD_eq_getElem?_getD, h]
  rfl

theorem solve_mono_step (sqrtQ : ℚ → ℚ) (q : ℚ) (st : SolverState) (hq : 0 ≤ q)
    (hinv : SolveInv q st) :
    SolveInv q (solve sqrtQ q st) ∧
    (∀ i, (st.kalman i).initialized = true →
      ((solve sqrtQ q st).kalman i).initialized = true) ∧
    (∀ i, (st.kalman i).initialized = true →
      confAt st i ≤ confAt (solve sqrtQ q st) i) := by
  by_cases hn1 : st.table.length < 2
  · have hid : solve sqrtQ q st = st := by
      unfold solve
      rw [if_pos hn1]
    rw [hid]
    exact ⟨hinv, fun i hi => hi, fun i _ => le_refl _⟩
  by_cases hn2 : st.table.length = 2
  · have hnone : ∀ j, ¬ (st.kalman j).initialized = true := by
      intro j hj
      have := (hinv j hj).1
      omega
    have hk : (solve sqrtQ q st).kalman = st.kalman := by
      unfold solve
      rw [if_neg hn1, if_pos hn2]
      split_ifs <;> rfl
    refine ⟨?_, ?_, ?_⟩
    · intro j hj
      rw [hk] at hj
      exact (hnone j hj).elim
    · intro i hi
      exact (hnone i hi).elim
    · intro i hi
      exact (hnone i hi).elim
  by_cases habort : countValidPairs st.table st.table.length < st.table.length - 1
  · have hid : solve sqrtQ q st = st := by
      unfold solve
      rw [if_neg hn1, if_neg hn2, if_pos habort]
    rw [hid]
    exact ⟨hinv, fun i hi => hi, fun i _ => le_refl _⟩
  · have hsolve : solve sqrtQ q st =
        (List.range st.table.length).foldl
          (kalmanWrite q (min (getDimension st.table) 3) (solveCoords sqrtQ st.table)) st := by
      unfold solve
      rw [if_neg hn1, if_neg hn2, if_neg habort]
      rfl
    have hlen3 : 3 ≤ st.table.length := by omega
    have hlenpres : (solve sqrtQ q st).table.length = st.table.length := by
      rw [hsolve]
      exact kalmanFold_length ..
    -- per-node facts
    have hnode : ∀ j, j < st.table.length →
        (solve sqrtQ q st).kalman j
          = kalmanUpdateNode q (min (getDimension st.table) 3)
              (solveCoords sqrtQ st.table j 0) (solveCoords sqrtQ st.table j 1)
              (solveCoords sqrtQ st.table j 2) (st.kalman j) ∧
        confAt (solve sqrtQ q st) j
          = confidenceOf ((solve sqrtQ q st).kalman j).P0
              ((solve sqrtQ q st).kalman j).P1 ((solve sqrtQ q st).kalman j).P2 := by
      intro j hj
      obtain ⟨h1, h2⟩ := kalmanFold_touched q (min (getDimension st.table) 3)
        (solveCoords sqrtQ st.table) (List.range st.table.length) st j
        (List.mem_range.mpr hj) (List.nodup_range _) hj
      rw [← hsolve] at h1 h2
      have he0 : st.table[j]? = some (st.table.get ⟨j, hj⟩) := List.getElem?_eq_getElem hj
      rw [he0, Option.map_some'] at h2
      refine ⟨h1, ?_⟩
      rw [confAt_eq h2, h1]
    have huntouched : ∀ j, ¬ j < st.table.length →
        (solve sqrtQ q st).kalman j = st.kalman j ∧
        confAt (solve sqrtQ q st) j = confAt st j := by
      intro j hj
      obtain ⟨h1, h2⟩ := kalmanFold_untouched q (min (getDimension st.table) 3)
        (solveCoords sqrtQ st.table) (List.range st.table.length) st j
        (by simpa using hj)
      rw [← hsolve] at h1 h2
      refine ⟨h1, ?_⟩
      unfold confAt
      rw [List.getD_eq_getElem?_getD, List.getD_eq_getElem?_getD, h2]
    refine ⟨?_, ?_, ?_⟩
    · -- invariant preserved
      intro j hj'
      by_cases hj : j < st.table.length
      · obtain ⟨hform, hconf⟩ := hnode j hj
        by_cases hini : (st.kalman j).initialized = true
        · obtain ⟨_, hk0, hk1, hk2, _⟩ := hinv j hini
          obtain ⟨o0, o1, o2, _, _, _⟩ := kalmanUpdateNode_spec q _ _ _ _ (st.kalman j)
            hq hini hk0 hk1 hk2
          rw [hform]
          exact ⟨by omega, o0, o1, o2, by rw [hconf, hform]⟩
        · -- was uninitialized: fresh P = 100
          have hfalse : (st.kalman j).initialized = false := by
            simpa using hini
          have hP : ((solve sqrtQ q st).kalman j).P0 = 100 ∧
              ((solve sqrtQ q st).kalman j).P1 = 100 ∧
              ((solve sqrtQ q st).kalman j).P2 = 100 := by
            rw [hform]
            unfold kalmanUpdateNode
            rw [if_pos hfalse]
            exact ⟨rfl, rfl, rfl⟩
          have hOK : KalmanAxisOK q 100 := by
            constructor
            · norm_num
            · nlinarith [hq]
          refine ⟨by omega, ?_, ?_, ?_, by rw [hconf]⟩
          · rw [hP.1]; exact hOK
          · rw [hP.2.1]; exact hOK
          · rw [hP.2.2]; exact hOK
      · obtain ⟨h1, h2⟩ := huntouched j hj
        rw [h1] at hj' ⊢
        obtain ⟨ha, hb, hc, hd, he⟩ := hinv j hj'
        rw [h2]
        exact ⟨by omega, hb, hc, hd, he⟩
    · -- initialized preserved
      intro i hi
      by_cases hj : i < st.table.length
      · rw [(hnode i hj).1]
        exact kalmanUpdateNode_initialized ..
      · rw [(huntouched i hj).1]
        exact hi
    · -- confidence monotone for initialized nodes
      intro i hi
      by_cases hj : i < st.table.length
      · obtain ⟨hform, hconf⟩ := hnode i hj
        obtain ⟨_, hk0, hk1, hk2, hcle⟩ := hinv i hi
        obtain ⟨o0, o1, o2, l0, l1, l2⟩ := kalmanUpdateNode_spec q _ _ _ _ (st.kalman i)
          hq hi hk0 hk1 hk2
        have : confidenceOf (st.kalman i).P0 (st.kalman i).P1 (st.kalman i).P2
            ≤ confidenceOf ((solve sqrtQ q st).kalman i).P0
              ((solve sqrtQ q st).kalman i).P1 ((solve sqrtQ q st).kalman i).P2 := by
          rw [hform]
          exact confidenceOf_mono o0.1 o1.1 o2.1 (by linarith [l0, l1, l2])
        rw [hconf]
        exact le_trans hcle this
      · rw [(huntouched i hj).2]

/-- C9. For every node whose Kalman filter has been initialized, across
any sequence of repeated solves with the fixed measurement noise `R = 50`
and a fixed nonnegative process-noise constant, the confidence stored in the
peer table never decreases from one solve to the next (given the solver
invariant, which holds for all states the firmware actually produces:
initialization always sets `P = 100` per axis, above the Kalman fixed
point). -/
theorem solve_confidence_monotone (sqrtQ : ℚ → ℚ) (q : ℚ) (st : SolverState)
    (i m : ℕ) (hq : 0 ≤ q) (hinv : SolveInv q st)
    (hin : (st.kalman i).initialized = true) :
    confAt ((solve sqrtQ q)^[m] st) i ≤ confAt ((solve sqrtQ q)^[m + 1] st) i := by
  induction m generalizing st with
  | zero =>
    simpa using (solve_mono_step sqrtQ q st hq hinv).2.2 i hin
  | succ m ih =>
    rw [Function.iterate_succ_apply (solve sqrtQ q) (m + 1) st,
      Function.iterate_succ_apply (solve sqrtQ q) m st]
    exact ih (solve sqrtQ q st) (solve_mono_step sqrtQ q st hq hinv).1
      ((solve_mono_step sqrtQ q st hq hinv).2.1 i hin)

/-- Witness for C9: the three-node fixture with node 0's filter initialized
at `P = (100,100,100)` and stored confidence 0; one solve does not decrease
its confidence. -/
theorem solve_confidence_monotone_witness :
    confAt ((solve (fun _ => 0) (1/100))^[0] c9State) 0
      ≤ confAt ((solve (fun _ => 0) (1/100))^[0 + 1] c9State) 0 := by
  refine solve_confidence_monotone (fun _ => 0) (1/100) c9State 0 0 (by norm_num) ?_ (by rfl)
  intro j hj
  by_cases h0 : j = 0
  · subst h0
    refine ⟨by decide, ⟨by norm_num [c9State, c9Kalman], by norm_num [c9State, c9Kalman]⟩,
      ⟨by norm_num [c9State, c9Kalman], by norm_num [c9State, c9Kalman]⟩,
      ⟨by norm_num [c9State, c9Kalman], by norm_num [c9State, c9Kalman]⟩, ?_⟩
    have hc : confAt c9State 0 = 0 := by with_unfolding_all rfl
    rw [hc]
    norm_num [c9State, c9Kalman, confidenceOf]
  · exfalso
    simp [c9State, initKalman, h0] at hj

end Squeek
